import Mathlib

/-!
# Verification of the go-thor/thor RPC core

A shallow embedding of the core data model and operations of the thor RPC
framework, with theorems settling the specification claims about:

* the Layout-B binary envelope codec (`codec/binary/binary.go`);
* route parsing (`parseServiceMethod` in `server.go` and `pkg/server.go`);
* the client call multiplexor (`client.go` root draft and the `pkg` draft);
* the dispatch engine (`pkg/server.go`);
* service registration (`server.go`);
* the structured error model (`errors` package).

Go byte strings are modelled as `List Nat` with every element below 256;
machine integers are `Nat` with explicit reduction modulo `2 ^ w` at the
points where the Go code truncates. Fallible Go functions return `Option`
or a pair carrying the unmodified destination plus an error flag, mirroring
the by-reference write-on-success convention of the source.
-/

/-- Go `[]byte` and `string` values, as lists of byte values. -/
abbrev Bytes := List Nat

/-- Every element of the list is a byte value (below 256). -/
def IsBytes (l : Bytes) : Prop := ∀ x ∈ l, x < 256

instance : DecidablePred IsBytes := fun l =>
  inferInstanceAs (Decidable (∀ x ∈ l, x < 256))

/-- Big-endian encoding of `n` on `w` bytes, truncating above `256 ^ w`,
as produced by `binary.Write(buf, binary.BigEndian, uintN(n))`. -/
def beBytes : Nat → Nat → Bytes
  | 0, _ => []
  | w + 1, n => (n / 256 ^ w) % 256 :: beBytes w n

@[simp] theorem beBytes_length (w n : Nat) : (beBytes w n).length = w := by
  induction w generalizing n with
  | zero => rfl
  | succ w ih => simp [beBytes, ih]

/-- Big-endian read of `w` bytes from the front of a buffer, as performed by
`binary.Read(buf, binary.BigEndian, &uintN)`; `none` when the buffer runs
short. The accumulator carries the value of the bytes consumed so far. -/
def parseU : Nat → Bytes → Nat → Option (Nat × Bytes)
  | 0, l, acc => some (acc, l)
  | _ + 1, [], _ => none
  | w + 1, b :: l, acc => parseU w l (acc * 256 + b)

/-- Exact reading of `n` bytes from the front of a buffer, as performed by
`io.ReadFull` into a fresh `n`-byte slice; `none` when the buffer runs short. -/
def takeN : Nat → Bytes → Option (Bytes × Bytes)
  | 0, l => some ([], l)
  | _ + 1, [] => none
  | n + 1, b :: l =>
    match takeN n l with
    | some (xs, rest) => some (b :: xs, rest)
    | none => none

theorem parseU_beBytes (w : Nat) :
    ∀ (n acc : Nat) (rest : Bytes),
      parseU w (beBytes w n ++ rest) acc = some (acc * 256 ^ w + n % 256 ^ w, rest) := by
  induction w with
  | zero => intro n acc rest; simp [beBytes, parseU, Nat.mod_one]
  | succ w ih =>
    intro n acc rest
    have hsplit : n % 256 ^ (w + 1) = n % 256 ^ w + 256 ^ w * (n / 256 ^ w % 256) := by
      have h2 : n % (256 ^ w * 256) = n % 256 ^ w + 256 ^ w * (n / 256 ^ w % 256) :=
        Nat.mod_mul
      calc n % 256 ^ (w + 1) = n % (256 ^ w * 256) := by rw [pow_succ]
        _ = n % 256 ^ w + 256 ^ w * (n / 256 ^ w % 256) := h2
    simp only [beBytes, List.cons_append, parseU]
    rw [show List.append (beBytes w n) rest = beBytes w n ++ rest from rfl, ih]
    simp only [Option.some.injEq, Prod.mk.injEq, and_true]
    rw [hsplit]
    ring

theorem parseU_exact {w n : Nat} (h : n < 256 ^ w) (rest : Bytes) :
    parseU w (beBytes w n ++ rest) 0 = some (n, rest) := by
  rw [parseU_beBytes, Nat.zero_mul, Nat.zero_add, Nat.mod_eq_of_lt h]

theorem takeN_exact {n : Nat} {xs : Bytes} (h : xs.length = n) (rest : Bytes) :
    takeN n (xs ++ rest) = some (xs, rest) := by
  induction xs generalizing n with
  | nil => subst h; simp [takeN]
  | cons b l ih =>
    subst h
    simp only [List.length_cons, List.cons_append, takeN]
    rw [show (l.append rest) = l ++ rest from rfl, ih rfl]

theorem takeN_short {n : Nat} {l : Bytes} (h : l.length < n) : takeN n l = none := by
  induction l generalizing n with
  | nil =>
    match n, h with
    | m + 1, _ => rfl
  | cons b t ih =>
    match n, h with
    | m + 1, h =>
      have : t.length < m := by simpa using h
      simp [takeN, ih this]

theorem parseU_short {w : Nat} {l : Bytes} (h : l.length < w) (acc : Nat) :
    parseU w l acc = none := by
  induction l generalizing w acc with
  | nil =>
    match w, h with
    | m + 1, _ => rfl
  | cons b t ih =>
    match w, h with
    | m + 1, h =>
      have : t.length < m := by simpa using h
      simp [parseU, ih this]

/-!
## Error model (`errors` package, src/unnamed/part_009)

Go `error` values reachable in this code base are either a `*errors.Error`
(a structured error with code, message and optional cause) or a foreign
error produced by `errors.New` / `fmt.Errorf` (a message, optionally
wrapping a cause via the `%w` verb). A nil-able `error` is `Option GoError`.
-/

/-- A non-nil Go error value. `thorErrN` and `thorErrC` are `*errors.Error`
without and with a cause; `foreignN` and `foreignC` are any other error
type, where for `foreignC` the message already contains the formatted cause
text (as `fmt.Errorf` produces) and the cause is reachable via `Unwrap`. -/
inductive GoError where
  | thorErrN (code message : String)
  | thorErrC (code message : String) (cause : GoError)
  | foreignN (message : String)
  | foreignC (message : String) (cause : GoError)
deriving DecidableEq, Repr

namespace GoError

/-- The `Error()` string of an error: `*errors.Error` prints
`code: message` or `code: message: cause`; a foreign error prints its
message (which for `fmt.Errorf` already embeds the cause text). -/
def errString : GoError → String
  | .thorErrN c m => c ++ ": " ++ m
  | .thorErrC c m cause => c ++ ": " ++ m ++ ": " ++ errString cause
  | .foreignN m => m
  | .foreignC m _ => m

/-- The walk performed by `errors.As(err, &e)` for target type
`*errors.Error`: the first `*errors.Error` in the Unwrap chain, as its
(code, message) pair. -/
def asThorError : GoError → Option (String × String)
  | .thorErrN c m => some (c, m)
  | .thorErrC c m _ => some (c, m)
  | .foreignN _ => none
  | .foreignC _ cause => asThorError cause

/-- The Unwrap chain of an error: the error itself followed by the chain of
its cause, when present. -/
def unwrapChain : GoError → List GoError
  | .thorErrN c m => [.thorErrN c m]
  | .thorErrC c m cause => .thorErrC c m cause :: unwrapChain cause
  | .foreignN m => [.foreignN m]
  | .foreignC m cause => .foreignC m cause :: unwrapChain cause

/-- Whether an error value is a `*errors.Error`. -/
def isThorError : GoError → Bool
  | .thorErrN _ _ => true
  | .thorErrC _ _ _ => true
  | _ => false

/-- The code of a `*errors.Error`, and `"unknown"` otherwise. -/
def ownCode : GoError → String
  | .thorErrN c _ => c
  | .thorErrC c _ _ => c
  | _ => "unknown"

end GoError

namespace Errors

/-- `errors.Code`: the code of the first `*errors.Error` found by
`errors.As` in the chain of a (nil-able) error, `"unknown"` when none. -/
def Code : Option GoError → String
  | none => "unknown"
  | some e =>
    match e.asThorError with
    | some (c, _) => c
    | none => "unknown"

/-- `errors.Wrap(code, err, message)`: nil stays nil; otherwise a new
`*errors.Error` with the given code and message wrapping `err`. -/
def Wrap (code : String) (err : Option GoError) (message : String) : Option GoError :=
  match err with
  | none => none
  | some e => some (.thorErrC code message e)

/-- `errors.ErrClientClosed`. -/
def ErrClientClosed : GoError := .thorErrN "unknown" "client closed"

/-- `errors.ErrServerClosed`. -/
def ErrServerClosed : GoError := .thorErrN "unknown" "server closed"

/-- `errors.ErrServiceNotFound`. -/
def ErrServiceNotFound : GoError := .thorErrN "not_found" "service not found"

/-- `errors.ErrMethodNotFound`. -/
def ErrMethodNotFound : GoError := .thorErrN "not_found" "method not found"

end Errors

/-!
## Envelope data model and Layout-B binary codec (`codec/binary/binary.go`)

`thor.Request` and `thor.Response` (src/unnamed/part_002). Metadata maps
are modelled as association lists; the inner payload codec used for the
metadata map is passed in abstractly as an encode function `mEnc` (`none`
models a marshal failure) and a decode function `mDec`.
-/

/-- `thor.Request`. -/
structure Request where
  serviceMethod : Bytes
  metadata : List (String × String)
  payload : Bytes
  args : Bytes
  seq : Nat
deriving DecidableEq, Repr

/-- `thor.Response`. -/
structure Response where
  serviceMethod : Bytes
  metadata : List (String × String)
  payload : Bytes
  reply : Bytes
  error : Bytes
  seq : Nat
deriving DecidableEq, Repr

namespace Binary

/-- The payload bytes selected by `Codec.Marshal` for a request: `Payload`
when non-empty, else `Args` when non-empty, else empty. -/
def reqPayloadBytes (r : Request) : Bytes :=
  if 0 < r.payload.length then r.payload
  else if 0 < r.args.length then r.args
  else []

/-- The payload bytes selected by `Codec.Marshal` for a response: `Payload`
when non-empty, else `Reply` when non-empty, else empty. -/
def respPayloadBytes (p : Response) : Bytes :=
  if 0 < p.payload.length then p.payload
  else if 0 < p.reply.length then p.reply
  else []

/-- `Codec.Marshal` on a `*thor.Request`: magic `0x8274`, version `0x01`,
message type `0x01`, encoding byte, 8-byte big-endian sequence, 1-byte
service-method length (rejecting lengths above 255), service-method bytes,
4-byte metadata length, metadata bytes produced by the inner codec, 4-byte
payload length, payload bytes. `encB` is the advisory encoding id computed
from the inner codec name. -/
def marshalRequest (mEnc : List (String × String) → Option Bytes) (encB : Nat)
    (r : Request) : Option Bytes :=
  if 255 < r.serviceMethod.length then none
  else
    match mEnc r.metadata with
    | none => none
    | some mb =>
      some ([0x82, 0x74, 0x01, 0x01, encB] ++ beBytes 8 r.seq
        ++ [r.serviceMethod.length] ++ r.serviceMethod
        ++ beBytes 4 mb.length ++ mb
        ++ beBytes 4 (reqPayloadBytes r).length ++ reqPayloadBytes r)

/-- `Codec.Marshal` on a `*thor.Response`: as for a request with message
type `0x02`, and a 2-byte error length (truncated modulo `2 ^ 16`, as
`uint16(len(msg.Error))` does) followed by the error bytes, between the
metadata and the payload. -/
def marshalResponse (mEnc : List (String × String) → Option Bytes) (encB : Nat)
    (p : Response) : Option Bytes :=
  if 255 < p.serviceMethod.length then none
  else
    match mEnc p.metadata with
    | none => none
    | some mb =>
      some ([0x82, 0x74, 0x01, 0x02, encB] ++ beBytes 8 p.seq
        ++ [p.serviceMethod.length] ++ p.serviceMethod
        ++ beBytes 4 mb.length ++ mb
        ++ beBytes 2 p.error.length ++ p.error
        ++ beBytes 4 (respPayloadBytes p).length ++ respPayloadBytes p)

/-- The parsing core of `Codec.Unmarshal`: checks the 13-byte minimum, the
magic, the version; reads message type, encoding byte, sequence, the
service-method, the metadata (decoded through the inner codec only when its
declared length is positive, else the fresh empty map); then by message
type either the request tail (payload) or the response tail (error then
payload), filling both mirror fields (`Args`/`Payload`, `Reply`/`Payload`)
with the payload bytes as the source does. Returns the filled value, or
`none` on any failure. -/
def unmarshal (mDec : Bytes → Option (List (String × String)))
    (data : Bytes) : Option (Sum Request Response) :=
  if data.length < 13 then none
  else
    match parseU 2 data 0 with
    | none => none
    | some (magic, r1) =>
      if magic ≠ 0x8274 then none
      else
        match parseU 1 r1 0 with
        | none => none
        | some (version, r2) =>
          if version ≠ 1 then none
          else
            match parseU 1 r2 0 with
            | none => none
            | some (msgType, r3) =>
              match parseU 1 r3 0 with
              | none => none
              | some (_, r4) =>
                match parseU 8 r4 0 with
                | none => none
                | some (seq, r5) =>
                  match parseU 1 r5 0 with
                  | none => none
                  | some (methodLen, r6) =>
                    match takeN methodLen r6 with
                    | none => none
                    | some (sm, r7) =>
                      match parseU 4 r7 0 with
                      | none => none
                      | some (mdLen, r8) =>
                        match takeN mdLen r8 with
                        | none => none
                        | some (mdBytes, r9) =>
                          match (if 0 < mdLen then mDec mdBytes else some []) with
                          | none => none
                          | some md =>
                            if msgType = 1 then
                              match parseU 4 r9 0 with
                              | none => none
                              | some (pLen, r10) =>
                                match takeN pLen r10 with
                                | none => none
                                | some (pl, _) =>
                                  some (.inl ⟨sm, md, pl, pl, seq⟩)
                            else if msgType = 2 then
                              match parseU 2 r9 0 with
                              | none => none
                              | some (eLen, r10) =>
                                match takeN eLen r10 with
                                | none => none
                                | some (eb, r11) =>
                                  match parseU 4 r11 0 with
                                  | none => none
                                  | some (pLen, r12) =>
                                    match takeN pLen r12 with
                                    | none => none
                                    | some (pl, _) =>
                                      some (.inr ⟨sm, md, pl, pl, eb, seq⟩)
                            else none

/-- `Codec.Unmarshal(data, v)` with `v` a `*thor.Request`: the pair of the
destination value after the call and the error flag (`true` when an error
was returned). On every failure path of the source — including a parsed
response frame, whose type assertion to `*thor.Request` fails — the
destination is not written. -/
def unmarshalRequest (mDec : Bytes → Option (List (String × String)))
    (data : Bytes) (dst : Request) : Request × Bool :=
  match unmarshal mDec data with
  | some (.inl r) => (r, false)
  | _ => (dst, true)

/-- `Codec.Unmarshal(data, v)` with `v` a `*thor.Response`. -/
def unmarshalResponse (mDec : Bytes → Option (List (String × String)))
    (data : Bytes) (dst : Response) : Response × Bool :=
  match unmarshal mDec data with
  | some (.inr p) => (p, false)
  | _ => (dst, true)

end Binary

namespace Binary

theorem parseU_one (a : Nat) (l : Bytes) (acc : Nat) :
    parseU 1 (a :: l) acc = some (acc * 256 + a, l) := rfl

theorem parseU_two (a b : Nat) (l : Bytes) (acc : Nat) :
    parseU 2 (a :: b :: l) acc = some ((acc * 256 + a) * 256 + b, l) := rfl

theorem reqPayloadBytes_eq {r : Request} (h : r.args = r.payload) :
    reqPayloadBytes r = r.payload := by
  unfold reqPayloadBytes
  rw [h]
  split_ifs with h1
  · rfl
  · exact (List.eq_nil_of_length_eq_zero (by omega)).symm

theorem respPayloadBytes_eq {p : Response} (h : p.reply = p.payload) :
    respPayloadBytes p = p.payload := by
  unfold respPayloadBytes
  rw [h]
  split_ifs with h1
  · rfl
  · exact (List.eq_nil_of_length_eq_zero (by omega)).symm


theorem takeN_all (xs : Bytes) : takeN xs.length xs = some (xs, []) := by
  simpa using takeN_exact rfl ([] : Bytes)

theorem unmarshal_marshal_req (mDec : Bytes → Option (List (String × String)))
    (encB : Nat) (r : Request) (mb : Bytes)
    (hseq : r.seq < 2 ^ 64)
    (hpl : r.payload.length < 2 ^ 32)
    (hmblen : mb.length < 2 ^ 32)
    (hmdec : mDec mb = some r.metadata)
    (hmb0 : mb.length = 0 → r.metadata = []) :
    unmarshal mDec ([0x82, 0x74, 0x01, 0x01, encB] ++ beBytes 8 r.seq
        ++ [r.serviceMethod.length] ++ r.serviceMethod
        ++ beBytes 4 mb.length ++ mb
        ++ beBytes 4 r.payload.length ++ r.payload)
      = some (.inl ⟨r.serviceMethod, r.metadata, r.payload, r.payload, r.seq⟩) := by
  obtain ⟨sm, md, pl, args, seq⟩ := r
  simp only at hseq hpl hmdec hmb0 ⊢
  have hseq' : seq < 256 ^ 8 := by norm_num at hseq ⊢; omega
  have hpl' : pl.length < 256 ^ 4 := by norm_num at hpl ⊢; omega
  have hmblen' : mb.length < 256 ^ 4 := by norm_num at hmblen ⊢; omega
  have hL : ¬ (([0x82, 0x74, 0x01, 0x01, encB] ++ beBytes 8 seq
      ++ [sm.length] ++ sm ++ beBytes 4 mb.length ++ mb
      ++ beBytes 4 pl.length ++ pl : Bytes).length < 13) := by
    simp [List.length_append]
  unfold unmarshal
  rw [if_neg hL]
  simp only [List.append_assoc, List.cons_append, List.nil_append]
  rw [parseU_two]
  norm_num
  rw [parseU_one]
  norm_num
  rw [parseU_one]
  norm_num
  rw [parseU_one]
  norm_num
  rw [parseU_exact hseq']
  dsimp only
  rw [parseU_one]
  norm_num
  rw [takeN_exact rfl]
  dsimp only
  rw [parseU_exact hmblen']
  dsimp only
  rw [takeN_exact rfl]
  dsimp only
  by_cases hmb : mb.length = 0
  · have hmd : md = [] := hmb0 hmb
    rw [if_neg (by omega)]
    rw [parseU_exact hpl']
    dsimp only
    rw [takeN_all]
    simp [hmd]
  · rw [if_pos (by omega)]
    rw [hmdec]
    dsimp only
    rw [parseU_exact hpl']
    dsimp only
    rw [takeN_all]

theorem unmarshal_marshal_resp (mDec : Bytes → Option (List (String × String)))
    (encB : Nat) (p : Response) (mb : Bytes)
    (hseq : p.seq < 2 ^ 64)
    (hpl : p.payload.length < 2 ^ 32)
    (herr : p.error.length < 2 ^ 16)
    (hmblen : mb.length < 2 ^ 32)
    (hmdec : mDec mb = some p.metadata)
    (hmb0 : mb.length = 0 → p.metadata = []) :
    unmarshal mDec ([0x82, 0x74, 0x01, 0x02, encB] ++ beBytes 8 p.seq
        ++ [p.serviceMethod.length] ++ p.serviceMethod
        ++ beBytes 4 mb.length ++ mb
        ++ beBytes 2 p.error.length ++ p.error
        ++ beBytes 4 p.payload.length ++ p.payload)
      = some (.inr ⟨p.serviceMethod, p.metadata, p.payload, p.payload, p.error, p.seq⟩) := by
  obtain ⟨sm, md, pl, rp, eb, seq⟩ := p
  simp only at hseq hpl herr hmdec hmb0 ⊢
  have hseq' : seq < 256 ^ 8 := by norm_num at hseq ⊢; omega
  have hpl' : pl.length < 256 ^ 4 := by norm_num at hpl ⊢; omega
  have herr' : eb.length < 256 ^ 2 := by norm_num at herr ⊢; omega
  have hmblen' : mb.length < 256 ^ 4 := by norm_num at hmblen ⊢; omega
  have hL : ¬ (([0x82, 0x74, 0x01, 0x02, encB] ++ beBytes 8 seq
      ++ [sm.length] ++ sm ++ beBytes 4 mb.length ++ mb
      ++ beBytes 2 eb.length ++ eb
      ++ beBytes 4 pl.length ++ pl : Bytes).length < 13) := by
    simp [List.length_append]
  unfold unmarshal
  rw [if_neg hL]
  simp only [List.append_assoc, List.cons_append, List.nil_append]
  rw [parseU_two]
  norm_num
  rw [parseU_one]
  norm_num
  rw [parseU_one]
  norm_num
  rw [parseU_one]
  norm_num
  rw [parseU_exact hseq']
  dsimp only
  rw [parseU_one]
  norm_num
  rw [takeN_exact rfl]
  dsimp only
  rw [parseU_exact hmblen']
  dsimp only
  rw [takeN_exact rfl]
  dsimp only
  by_cases hmb : mb.length = 0
  · have hmd : md = [] := hmb0 hmb
    rw [if_neg (by omega)]
    rw [parseU_exact herr']
    dsimp only
    rw [takeN_exact rfl]
    dsimp only
    rw [parseU_exact hpl']
    dsimp only
    rw [takeN_all]
    simp [hmd]
  · rw [if_pos (by omega)]
    rw [hmdec]
    dsimp only
    rw [parseU_exact herr']
    dsimp only
    rw [takeN_exact rfl]
    dsimp only
    rw [parseU_exact hpl']
    dsimp only
    rw [takeN_all]

/-- Validity of a request value for the wire: the service-method fits the
1-byte length field, the sequence fits `uint64`, the payload length fits
the 4-byte length field, and the two mirrored payload fields (`Payload`,
`Args`) agree — which is exactly the shape the decoder itself produces. -/
def ValidRequest (r : Request) : Prop :=
  r.serviceMethod.length ≤ 255 ∧ r.seq < 2 ^ 64 ∧
    r.payload.length < 2 ^ 32 ∧ r.args = r.payload

/-- Validity of a response value for the wire: as for requests, with the
mirror pair (`Payload`, `Reply`) and the error string fitting the 2-byte
length field (the encoder truncates `uint16(len(msg.Error))` but still
writes all error bytes, so larger errors do not survive the wire). -/
def ValidResponse (p : Response) : Prop :=
  p.serviceMethod.length ≤ 255 ∧ p.seq < 2 ^ 64 ∧
    p.payload.length < 2 ^ 32 ∧ p.reply = p.payload ∧ p.error.length < 2 ^ 16

/-- The inner payload codec round-trips on the given metadata map, its
encoding fits the 4-byte length field, and a zero-length encoding is only
produced for the empty map (the decoder replaces a zero-length metadata
segment by a fresh empty map without consulting the inner codec). -/
def InnerRT (mEnc : List (String × String) → Option Bytes)
    (mDec : Bytes → Option (List (String × String)))
    (md : List (String × String)) : Prop :=
  ∃ mb, mEnc md = some mb ∧ mb.length < 2 ^ 32 ∧ mDec mb = some md ∧
    (mb.length = 0 → md = [])

end Binary

/-- C1: For every valid request value and every valid response value v,
encoding v with the binary envelope codec (`Codec.Marshal`) and decoding
the resulting bytes into a value of the same type (`Codec.Unmarshal`)
succeeds and yields exactly the fields of v (service_method, seq,
metadata, error, payload — together with the mirrored `Args`/`Reply`
field), provided the inner metadata codec round-trips as the codec
contract requires. -/
theorem envelope_codec_roundtrip :
    (∀ mEnc mDec (encB : Nat) (r dst : Request) (b : Bytes),
      Binary.ValidRequest r → Binary.InnerRT mEnc mDec r.metadata →
      Binary.marshalRequest mEnc encB r = some b →
      Binary.unmarshalRequest mDec b dst = (r, false)) ∧
    (∀ mEnc mDec (encB : Nat) (p dstp : Response) (b : Bytes),
      Binary.ValidResponse p → Binary.InnerRT mEnc mDec p.metadata →
      Binary.marshalResponse mEnc encB p = some b →
      Binary.unmarshalResponse mDec b dstp = (p, false)) := by
  constructor
  · rintro mEnc mDec encB r dst b ⟨hsm, hseq, hpl, hargs⟩ ⟨mb, hmEnc, hmblen, hmdec, hmb0⟩ hm
    unfold Binary.marshalRequest at hm
    rw [if_neg (by omega), hmEnc] at hm
    injection hm with hb
    subst hb
    unfold Binary.unmarshalRequest
    rw [Binary.reqPayloadBytes_eq hargs,
      Binary.unmarshal_marshal_req mDec encB r mb hseq hpl hmblen hmdec hmb0]
    obtain ⟨sm, md, pl, args, seq⟩ := r
    simp only at hargs
    rw [hargs]
  · rintro mEnc mDec encB p dstp b ⟨hsm, hseq, hpl, hrep, herr⟩ ⟨mb, hmEnc, hmblen, hmdec, hmb0⟩ hm
    unfold Binary.marshalResponse at hm
    rw [if_neg (by omega), hmEnc] at hm
    injection hm with hb
    subst hb
    unfold Binary.unmarshalResponse
    rw [Binary.respPayloadBytes_eq hrep,
      Binary.unmarshal_marshal_resp mDec encB p mb hseq hpl herr hmblen hmdec hmb0]
    obtain ⟨sm, md, pl, rp, eb, seq⟩ := p
    simp only at hrep
    rw [hrep]

/-- A concrete inner metadata codec for evaluating the round-trip at a
specific input: the map `[("k","v")]` is encoded as the single byte `7`. -/
def testMEnc (md : List (String × String)) : Option Bytes :=
  if md = [] then some [] else some [7]

/-- The decoder paired with `testMEnc`. -/
def testMDec (b : Bytes) : Option (List (String × String)) :=
  if b = [7] then some [("k", "v")] else some []

/-- A concrete request: service-method bytes "T.M", one metadata pair,
payload `[9, 9]`, sequence 123. -/
def testReq : Request := ⟨[84, 46, 77], [("k", "v")], [9, 9], [9, 9], 123⟩

/-- A concrete response: error bytes "bad", payload `[3]`, sequence 7. -/
def testResp : Response := ⟨[84, 46, 77], [("k", "v")], [3], [3], [98, 97, 100], 7⟩

/-- The zero value `&thor.Request{}`. -/
def freshReq : Request := ⟨[], [], [], [], 0⟩

/-- The zero value `&thor.Response{}`. -/
def freshResp : Response := ⟨[], [], [], [], [], 0⟩


instance : DecidablePred Binary.ValidRequest := fun r => by
  unfold Binary.ValidRequest; infer_instance

instance : DecidablePred Binary.ValidResponse := fun p => by
  unfold Binary.ValidResponse; infer_instance

/-- Witness for the round-trip theorem at the concrete request `testReq`
and response `testResp`. -/
theorem envelope_codec_roundtrip_witness :
    Binary.ValidRequest testReq ∧
    Binary.unmarshalRequest testMDec
      ([130, 116, 1, 1, 0] ++ [0, 0, 0, 0, 0, 0, 0, 123] ++ [3] ++ [84, 46, 77]
        ++ [0, 0, 0, 1] ++ [7] ++ [0, 0, 0, 2] ++ [9, 9]) freshReq = (testReq, false) ∧
    Binary.ValidResponse testResp ∧
    Binary.unmarshalResponse testMDec
      ([130, 116, 1, 2, 0] ++ [0, 0, 0, 0, 0, 0, 0, 7] ++ [3] ++ [84, 46, 77]
        ++ [0, 0, 0, 1] ++ [7] ++ [0, 3] ++ [98, 97, 100] ++ [0, 0, 0, 1] ++ [3]) freshResp
      = (testResp, false) := by
  refine ⟨by decide, ?_, by decide, ?_⟩
  · exact envelope_codec_roundtrip.1 testMEnc testMDec 0 testReq freshReq _
      (by decide) ⟨[7], by decide, by decide, by decide, by decide⟩ (by decide)
  · exact envelope_codec_roundtrip.2 testMEnc testMDec 0 testResp freshResp _
      (by decide) ⟨[7], by decide, by decide, by decide, by decide⟩ (by decide)

/-- C9: For every input byte string whose first two bytes are not
`0x82 0x74` or whose third byte is not the version `0x01` (including
strings too short to carry them), the Layout-B binary decoder returns an
error and leaves the destination request or response value unmodified. -/
theorem magic_version_guard :
    ∀ (mDec : Bytes → Option (List (String × String))) (data : Bytes)
      (dstR : Request) (dstP : Response),
      IsBytes data → data.take 3 ≠ [0x82, 0x74, 0x01] →
      Binary.unmarshalRequest mDec data dstR = (dstR, true) ∧
      Binary.unmarshalResponse mDec data dstP = (dstP, true) := by
  intro mDec data dstR dstP hbytes hmagic
  suffices h : Binary.unmarshal mDec data = none by
    unfold Binary.unmarshalRequest Binary.unmarshalResponse
    rw [h]
    exact ⟨rfl, rfl⟩
  by_cases hlen : data.length < 13
  · unfold Binary.unmarshal
    rw [if_pos hlen]
  · match data, hlen, hbytes, hmagic with
    | [], hlen, _, _ => exact absurd (by norm_num) hlen
    | [a], hlen, _, _ => exact absurd (by norm_num) hlen
    | [a, b], hlen, _, _ => exact absurd (by norm_num) hlen
    | a :: b :: c :: rest, hlen, hbytes, hmagic =>
      have ha : a < 256 := hbytes a (by simp)
      have hb : b < 256 := hbytes b (by simp)
      unfold Binary.unmarshal
      rw [if_neg hlen, Binary.parseU_two]
      dsimp only
      by_cases hmg : (0 * 256 + a) * 256 + b = 0x8274
      · have ha' : a = 0x82 := by omega
        have hb' : b = 0x74 := by omega
        have hc : c ≠ 1 := by
          intro hc
          exact hmagic (by simp [ha', hb', hc, List.take])
        rw [if_neg (by omega), Binary.parseU_one]
        dsimp only
        rw [if_pos (by omega)]
      · rw [if_pos (by omega)]

/-- Witness for the magic guard at the concrete input `[0, 1, 2]`. -/
theorem magic_version_guard_witness :
    IsBytes [0, 1, 2] ∧ ([0, 1, 2] : Bytes).take 3 ≠ [0x82, 0x74, 0x01] ∧
    Binary.unmarshalRequest testMDec [0, 1, 2] freshReq = (freshReq, true) ∧
    Binary.unmarshalResponse testMDec [0, 1, 2] freshResp = (freshResp, true) :=
  ⟨by decide, by decide,
    (magic_version_guard testMDec [0, 1, 2] freshReq freshResp (by decide) (by decide)).1,
    (magic_version_guard testMDec [0, 1, 2] freshReq freshResp (by decide) (by decide)).2⟩

/-- C2 counterexample: a well-formed 22-byte Layout-B request frame whose
service_method length byte is 0 is accepted by the decoder (error flag
`false`, yielding the empty service-method), even with an inner metadata
codec that always fails — so no `service_method_len == 0` rejection and no
maximum-size policy exists in `Codec.Unmarshal`. -/
theorem zero_service_method_accepted :
    Binary.unmarshalRequest (fun _ => none)
      [130, 116, 1, 1, 0, 0, 0, 0, 0, 0, 0, 0, 0, 0, 0, 0, 0, 0, 0, 0, 0, 0]
      freshReq = (⟨[], [], [], [], 0⟩, false) := by decide

/-- C2 (amended): the Layout-B decoder rejects a frame whenever a declared
length — the metadata length of either message type, or the payload length
of a request or of a response — exceeds the bytes remaining in the frame;
it enforces no other bound (no configured maximum message size, and no
`service_method_len == 0` check). -/
theorem declared_length_overrun_rejected :
    (∀ (mDec : Bytes → Option (List (String × String))) (t encB q m : Nat)
       (sm rest : Bytes),
      m < 2 ^ 32 → rest.length < m →
      Binary.unmarshal mDec ([0x82, 0x74, 0x01, t, encB] ++ beBytes 8 q
        ++ [sm.length] ++ sm ++ beBytes 4 m ++ rest) = none) ∧
    (∀ (mDec : Bytes → Option (List (String × String))) (encB q pLen : Nat)
       (sm mb rest : Bytes) (md : List (String × String)),
      mb.length < 2 ^ 32 → pLen < 2 ^ 32 → rest.length < pLen →
      (if 0 < mb.length then mDec mb else some []) = some md →
      Binary.unmarshal mDec ([0x82, 0x74, 0x01, 0x01, encB] ++ beBytes 8 q
        ++ [sm.length] ++ sm ++ beBytes 4 mb.length ++ mb
        ++ beBytes 4 pLen ++ rest) = none) ∧
    (∀ (mDec : Bytes → Option (List (String × String))) (encB q pLen : Nat)
       (sm mb eb rest : Bytes) (md : List (String × String)),
      mb.length < 2 ^ 32 → eb.length < 2 ^ 16 → pLen < 2 ^ 32 → rest.length < pLen →
      (if 0 < mb.length then mDec mb else some []) = some md →
      Binary.unmarshal mDec ([0x82, 0x74, 0x01, 0x02, encB] ++ beBytes 8 q
        ++ [sm.length] ++ sm ++ beBytes 4 mb.length ++ mb
        ++ beBytes 2 eb.length ++ eb ++ beBytes 4 pLen ++ rest) = none) := by
  refine ⟨?_, ?_, ?_⟩
  · intro mDec t encB q m sm rest hm hrest
    have hL : ¬ (([0x82, 0x74, 0x01, t, encB] ++ beBytes 8 q
        ++ [sm.length] ++ sm ++ beBytes 4 m ++ rest : Bytes).length < 13) := by
      simp [List.length_append]
    have hm' : m < 256 ^ 4 := by norm_num at hm ⊢; omega
    unfold Binary.unmarshal
    rw [if_neg hL]
    simp only [List.append_assoc, List.cons_append, List.nil_append]
    rw [Binary.parseU_two]
    norm_num
    rw [Binary.parseU_one]
    norm_num
    rw [Binary.parseU_one]
    norm_num
    rw [Binary.parseU_one]
    norm_num
    rw [parseU_beBytes]
    dsimp only
    rw [Binary.parseU_one]
    norm_num
    rw [takeN_exact rfl]
    dsimp only
    rw [parseU_exact hm']
    dsimp only
    rw [takeN_short hrest]
  · intro mDec encB q pLen sm mb rest md hmb hp hrest hmd
    have hL : ¬ (([0x82, 0x74, 0x01, 0x01, encB] ++ beBytes 8 q
        ++ [sm.length] ++ sm ++ beBytes 4 mb.length ++ mb
        ++ beBytes 4 pLen ++ rest : Bytes).length < 13) := by
      simp [List.length_append]
    have hmb' : mb.length < 256 ^ 4 := by norm_num at hmb ⊢; omega
    have hp' : pLen < 256 ^ 4 := by norm_num at hp ⊢; omega
    unfold Binary.unmarshal
    rw [if_neg hL]
    simp only [List.append_assoc, List.cons_append, List.nil_append]
    rw [Binary.parseU_two]
    norm_num
    rw [Binary.parseU_one]
    norm_num
    rw [Binary.parseU_one]
    norm_num
    rw [Binary.parseU_one]
    norm_num
    rw [parseU_beBytes]
    dsimp only
    rw [Binary.parseU_one]
    norm_num
    rw [takeN_exact rfl]
    dsimp only
    rw [parseU_exact hmb']
    dsimp only
    rw [takeN_exact rfl]
    dsimp only
    rw [hmd]
    dsimp only
    rw [parseU_exact hp']
    dsimp only
    rw [takeN_short hrest]
  · intro mDec encB q pLen sm mb eb rest md hmb herr hp hrest hmd
    have hL : ¬ (([0x82, 0x74, 0x01, 0x02, encB] ++ beBytes 8 q
        ++ [sm.length] ++ sm ++ beBytes 4 mb.length ++ mb
        ++ beBytes 2 eb.length ++ eb ++ beBytes 4 pLen ++ rest : Bytes).length < 13) := by
      simp [List.length_append]
    have hmb' : mb.length < 256 ^ 4 := by norm_num at hmb ⊢; omega
    have herr' : eb.length < 256 ^ 2 := by norm_num at herr ⊢; omega
    have hp' : pLen < 256 ^ 4 := by norm_num at hp ⊢; omega
    unfold Binary.unmarshal
    rw [if_neg hL]
    simp only [List.append_assoc, List.cons_append, List.nil_append]
    rw [Binary.parseU_two]
    norm_num
    rw [Binary.parseU_one]
    norm_num
    rw [Binary.parseU_one]
    norm_num
    rw [Binary.parseU_one]
    norm_num
    rw [parseU_beBytes]
    dsimp only
    rw [Binary.parseU_one]
    norm_num
    rw [takeN_exact rfl]
    dsimp only
    rw [parseU_exact hmb']
    dsimp only
    rw [takeN_exact rfl]
    dsimp only
    rw [hmd]
    dsimp only
    rw [parseU_exact herr']
    dsimp only
    rw [takeN_exact rfl]
    dsimp only
    rw [parseU_exact hp']
    dsimp only
    rw [takeN_short hrest]

/-- Witness for the overrun rejection, at concrete frames declaring a
metadata length of 5 (with 1 byte left), a request payload length of 9
(with 1 byte left) and a response payload length of 4 (with nothing
left). -/
theorem declared_length_overrun_rejected_witness :
    Binary.unmarshal testMDec ([0x82, 0x74, 0x01, 0x01, 0] ++ beBytes 8 3
      ++ [([] : Bytes).length] ++ [] ++ beBytes 4 5 ++ [9]) = none ∧
    Binary.unmarshal testMDec ([0x82, 0x74, 0x01, 0x01, 0] ++ beBytes 8 3
      ++ [([65] : Bytes).length] ++ [65] ++ beBytes 4 ([7] : Bytes).length ++ [7]
      ++ beBytes 4 9 ++ [1]) = none ∧
    Binary.unmarshal testMDec ([0x82, 0x74, 0x01, 0x02, 0] ++ beBytes 8 3
      ++ [([65] : Bytes).length] ++ [65] ++ beBytes 4 ([7] : Bytes).length ++ [7]
      ++ beBytes 2 ([] : Bytes).length ++ [] ++ beBytes 4 4 ++ []) = none :=
  ⟨declared_length_overrun_rejected.1 testMDec 1 0 3 5 [] [9] (by norm_num) (by norm_num),
   declared_length_overrun_rejected.2.1 testMDec 0 3 9 [65] [7] [1] [("k", "v")]
     (by norm_num) (by norm_num) (by norm_num) (by decide),
   declared_length_overrun_rejected.2.2 testMDec 0 3 4 [65] [7] [] [] [("k", "v")]
     (by norm_num) (by norm_num) (by norm_num) (by norm_num) (by decide)⟩

/-!
## Route parsing (`parseServiceMethod`, src/server.go and src/pkg/server.go)

Both drafts scan for the first dot (index 0 when none is found) and reject
exactly when that index is 0. Go indexes bytes; the inputs of interest are
ASCII, where byte and character positions coincide, so the string is
modelled by its character list.
-/

/-- `parseServiceMethod`: the index of the first `.` (0 when absent); an
error when that index is 0; otherwise the text before the dot and the text
after it. -/
def parseServiceMethod (s : String) : Option (String × String) :=
  let dot := match s.toList.findIdx? (· == '.') with
    | some i => i
    | none => 0
  if dot = 0 then none
  else some (⟨s.toList.take dot⟩, ⟨s.toList.drop (dot + 1)⟩)

/-- C3 counterexample: `parseServiceMethod` does not return an error for
the input `"A."` — it accepts it, with service `"A"` and an empty method
name. -/
theorem parseServiceMethod_accepts_trailing_dot :
    parseServiceMethod "A." = some ("A", "") := by decide

/-- C3 (amended): `parseServiceMethod` maps `"A.B"` to `("A", "B")` and
`"A.B.C"` to `("A", "B.C")` (split at the first dot), and rejects `"A"`,
`"."` and `".B"`; but `"A."` is accepted as `("A", "")` — every accepted
input has a non-empty service name, while the method name may be empty. -/
theorem parseServiceMethod_spec :
    parseServiceMethod "A.B" = some ("A", "B") ∧
    parseServiceMethod "A.B.C" = some ("A", "B.C") ∧
    parseServiceMethod "A" = none ∧
    parseServiceMethod "." = none ∧
    parseServiceMethod ".B" = none ∧
    parseServiceMethod "A." = some ("A", "") ∧
    (∀ s svc mth, parseServiceMethod s = some (svc, mth) → svc ≠ "") := by
  refine ⟨by decide, by decide, by decide, by decide, by decide, by decide, ?_⟩
  intro s svc mth h
  unfold parseServiceMethod at h
  cases hf : s.toList.findIdx? (· == '.') with
  | none => rw [hf] at h; simp at h
  | some i =>
    rw [hf] at h
    by_cases hi : i = 0
    · simp [hi] at h
    · rw [if_neg hi] at h
      injection h with h
      have hne : s.toList ≠ [] := by
        intro hnil
        rw [hnil] at hf
        simp [List.findIdx?] at hf
      have : (s.toList.take i) ≠ [] := by
        intro htk
        have := congrArg List.length htk
        simp [List.length_take] at this
        rcases this with h1 | h1
        · exact hi h1
        · exact hne (List.eq_nil_of_length_eq_zero h1)
      intro hsv
      apply this
      have hfst : svc = (⟨s.toList.take i⟩ : String) := by
        have := congrArg Prod.fst h
        simpa using this.symm
      rw [hsv] at hfst
      have : ([] : List Char) = s.toList.take i := congrArg String.toList hfst
      exact this.symm

/-- Witness for the route-parsing theorem at the input `"A.B"`. -/
theorem parseServiceMethod_spec_witness :
    parseServiceMethod "A.B" = some ("A", "B") ∧ ("A" : String) ≠ "" :=
  ⟨parseServiceMethod_spec.1,
   parseServiceMethod_spec.2.2.2.2.2.2 "A.B" "A" "B" parseServiceMethod_spec.1⟩

/-- C10: `Code(err)` returns the `Code` field of the first `*Error` in the
Unwrap chain of `err` and `"unknown"` when the chain carries none
(including for nil); and `Wrap(code, nil, message)` returns nil, so
wrapping preserves error-absence (while wrapping a non-nil error builds a
coded error with that cause). -/
theorem code_and_wrap_spec :
    (∀ e : GoError, Errors.Code (some e) =
      (match e.unwrapChain.find? GoError.isThorError with
        | some f => f.ownCode
        | none => "unknown")) ∧
    Errors.Code none = "unknown" ∧
    (∀ code msg, Errors.Wrap code none msg = none) ∧
    (∀ code msg (e : GoError), Errors.Wrap code (some e) msg = some (.thorErrC code msg e)) := by
  refine ⟨?_, rfl, fun _ _ => rfl, fun _ _ _ => rfl⟩
  intro e
  induction e with
  | thorErrN c m => rfl
  | thorErrC c m cause ih => rfl
  | foreignN m => rfl
  | foreignC m cause ih =>
    simp only [Errors.Code, GoError.asThorError, GoError.unwrapChain, List.find?,
      GoError.isThorError] at ih ⊢
    exact ih

/-!
## Service registration (`DefaultServer.register`, src/server.go)

The reflective parts are abstracted: the receiver is presented as its list
of methods, each with its name and a flag telling whether it matches the
admissible signature (context plus exported-pointer argument in,
exported-pointer reply plus error out); the nil-or-non-pointer receiver
check is a boolean input. The registry (`sync.Map` used with
`LoadOrStore`) is an association list.
-/

/-- `isExported` (ASCII fragment of `unicode.IsUpper` on the first rune;
false for the empty string, whose decoded rune is the replacement
character). -/
def isExported (name : String) : Bool :=
  match name.toList with
  | [] => false
  | c :: _ => c.isUpper

/-- The names of the methods admitted by the signature filter of
`register`: exported name and matching signature. -/
def admissibleMethods (methods : List (String × Bool)) : List String :=
  (methods.filter (fun m => isExported m.1 && m.2)).map (fun m => m.1)

/-- The dispatch-engine server state used by `register`: closed flag and
the service registry, mapping each service name to its method names. -/
structure ServerState where
  closed : Bool
  services : List (String × List String)
deriving DecidableEq, Repr

/-- `DefaultServer.register`: rejects when the server is closed, the
receiver is nil or not a pointer, the effective name (explicit name, else
receiver type name) is empty or unexported, no method is admissible, or
the name is already taken (`LoadOrStore` reports it loaded); otherwise
appends the new entry. Error values follow the source: the first two
rejections carry error-model codes, the remaining ones are plain
`fmt.Errorf` errors. -/
def register (st : ServerState) (svcNilOrNonPtr : Bool)
    (explicitName typeName : String) (methods : List (String × Bool)) :
    ServerState × Option GoError :=
  if st.closed then (st, some Errors.ErrServerClosed)
  else if svcNilOrNonPtr then
    (st, some (.thorErrN "invalid_argument" "service must be a non-nil pointer"))
  else
    let serviceName := if explicitName = "" then typeName else explicitName
    if serviceName = "" then
      (st, some (.thorErrN "invalid_argument" "service name cannot be empty"))
    else if isExported serviceName = false then
      (st, some (.foreignN ("service " ++ serviceName ++ " is not exported")))
    else
      let ms := admissibleMethods methods
      if ms = [] then
        (st, some (.foreignN ("service " ++ serviceName ++ " has no exported methods")))
      else
        match st.services.lookup serviceName with
        | some _ =>
          (st, some (.foreignN ("service " ++ serviceName ++ " already registered")))
        | none => ({ st with services := st.services ++ [(serviceName, ms)] }, none)

/-- C8 counterexample: registering `"Svc"` twice fails, but with a plain
error whose error-model code is `"unknown"`, not `"already_exists"`; and
registering a service with zero admissible methods fails with a plain
error whose code is `"unknown"`, not `"invalid_argument"`. -/
theorem register_error_codes_counterexample :
    Errors.Code (register ⟨false, [("Svc", ["M"])]⟩ false "" "Svc" [("M", true)]).2
        = "unknown" ∧
    Errors.Code (register ⟨false, []⟩ false "" "Svc" []).2 = "unknown" := by
  constructor
  · rfl
  · rfl

/-- C8 (amended): registering a duplicate service name fails with the
plain error `service N already registered`, and registering a service with
zero admissible methods fails with the plain error
`service N has no exported methods`; both errors have error-model code
`"unknown"` (they are `fmt.Errorf` errors, not coded ones), and in both
cases the registry and the whole server state are left unchanged. -/
theorem register_duplicate_and_no_methods :
    (∀ (st : ServerState) (en tn : String) (methods : List (String × Bool))
       (entry : List String),
      st.closed = false →
      (if en = "" then tn else en) ≠ "" →
      isExported (if en = "" then tn else en) = true →
      st.services.lookup (if en = "" then tn else en) = some entry →
      admissibleMethods methods ≠ [] →
      register st false en tn methods =
        (st, some (.foreignN
          ("service " ++ (if en = "" then tn else en) ++ " already registered")))) ∧
    (∀ (st : ServerState) (en tn : String) (methods : List (String × Bool)),
      st.closed = false →
      (if en = "" then tn else en) ≠ "" →
      isExported (if en = "" then tn else en) = true →
      admissibleMethods methods = [] →
      register st false en tn methods =
        (st, some (.foreignN
          ("service " ++ (if en = "" then tn else en) ++ " has no exported methods")))) ∧
    (∀ msg, Errors.Code (some (.foreignN msg)) = "unknown") := by
  refine ⟨?_, ?_, fun _ => rfl⟩
  · intro st en tn methods entry hclosed hname hexp hdup hms
    unfold register
    rw [hclosed]
    simp only [Bool.false_eq_true, if_false]
    rw [if_neg hname, hexp]
    simp only [Bool.true_eq_false, if_false]
    rw [if_neg hms, hdup]
  · intro st en tn methods hclosed hname hexp hms
    unfold register
    rw [hclosed]
    simp only [Bool.false_eq_true, if_false]
    rw [if_neg hname, hexp]
    simp only [Bool.true_eq_false, if_false]
    rw [if_pos hms]

/-- Witness for the registration failure theorem, at a registry already
holding `"Svc"` and at a receiver whose single method is unexported. -/
theorem register_duplicate_and_no_methods_witness :
    register ⟨false, [("Svc", ["M"])]⟩ false "" "Svc" [("M", true)]
      = (⟨false, [("Svc", ["M"])]⟩, some (.foreignN "service Svc already registered")) ∧
    register ⟨false, []⟩ false "" "Svc" [("m", true)]
      = (⟨false, []⟩, some (.foreignN "service Svc has no exported methods")) ∧
    Errors.Code (some (.foreignN "service Svc already registered")) = "unknown" := by
  refine ⟨?_, ?_, register_duplicate_and_no_methods.2.2 _⟩
  · have := register_duplicate_and_no_methods.1 ⟨false, [("Svc", ["M"])]⟩ "" "Svc"
      [("M", true)] ["M"] rfl (by decide) (by decide) (by decide) (by decide)
    simpa using this
  · have := register_duplicate_and_no_methods.2.1 ⟨false, []⟩ "" "Svc"
      [("m", true)] rfl (by decide) (by decide) (by decide)
    simpa using this

/-!
## Middleware and the dispatch engine (`pkg/server.go`)

The pkg draft types: a handler is
`func(ctx context.Context, req interface{}) (interface{}, error)` and a
middleware maps a handler to a handler. `interface{}` is the type
parameter `V`; the `(reply, err)` pair, of which the engine only ever
reads `reply` when `err == nil`, is `Except GoError V`. A
`context.Context` is a stack of key/value pairs, the outermost first.
-/

/-- A context value stored by `context.WithValue`: a string or a metadata
map. -/
inductive CtxVal where
  | str (s : String)
  | meta (m : List (String × String))
deriving DecidableEq, Repr

/-- `context.Context` carrying `WithValue` entries, outermost first. -/
def GoCtx := List (String × CtxVal)

/-- The handler shape shared by the pkg server and client. -/
def HandlerFunc (V : Type) := GoCtx → V → Except GoError V

/-- `Middleware`: a function from handler to handler. -/
def Middleware (V : Type) := HandlerFunc V → HandlerFunc V

/-- The application loop shared verbatim by `DefaultServer.handleRequest`
and `DefaultClient.Go`:
`for i := len(mws) - 1; i >= 0; i-- { handler = mws[i](handler) }` —
the slice is walked from its last element to its first, each element
wrapping the handler built so far. -/
def applyMiddlewares {V : Type} (mws : List (Middleware V)) (h : HandlerFunc V) :
    HandlerFunc V :=
  mws.reverse.foldl (fun acc m => m acc) h

/-- C6: with middlewares registered in order [M1, M2, M3], the chain built
by the reverse-index loop (used identically on the server and the client)
is M1 applied outermost, then M2, then M3, around the terminal handler;
in general the loop equals the right fold of the registration list. -/
theorem middleware_order :
    (∀ (V : Type) (m1 m2 m3 : Middleware V) (h : HandlerFunc V),
      applyMiddlewares [m1, m2, m3] h = m1 (m2 (m3 h))) ∧
    (∀ (V : Type) (mws : List (Middleware V)) (h : HandlerFunc V),
      applyMiddlewares mws h = mws.foldr (fun m acc => m acc) h) := by
  constructor
  · intro V m1 m2 m3 h
    rfl
  · intro V mws h
    unfold applyMiddlewares
    induction mws with
    | nil => rfl
    | cons m rest ih =>
      simp only [List.reverse_cons, List.foldl_append, List.foldl_cons,
        List.foldl_nil, List.foldr_cons, ih]

/-- `thor.Request` as handled by the pkg draft server (the JSON envelope
fields used by `Serve` and `handleRequest`). -/
structure PkgRequest where
  serviceMethod : String
  seq : Nat
  metadata : List (String × String)
  payload : Bytes
deriving DecidableEq, Repr

/-- `thor.Response` as produced by the pkg draft server. -/
structure PkgResponse where
  serviceMethod : String
  seq : Nat
  metadata : List (String × String)
  error : String
  payload : Bytes
deriving DecidableEq, Repr

/-- A registered method as the dispatch engine uses it: materialize and
decode the argument (`reflect.New` on the argument type plus
`codec.Unmarshal`), and the reflective call of the method itself. -/
structure MethodEntry (V : Type) where
  argDecode : Bytes → Except GoError V
  invoke : GoCtx → V → Except GoError V

/-- `DefaultServer.handleRequest`: build the response echoing
service-method, seq and metadata; resolve the route (ill-formed route,
unknown service and unknown method put the error text into the response);
decode the argument; run the middleware chain around the method; on
handler error put its `Error()` text into the response and leave the
payload empty; on success store the encoded reply as the payload. Every
path returns a nil second component — errors never escape as Go errors. -/
def handleRequest {V : Type}
    (services : List (String × List (String × MethodEntry V)))
    (mws : List (Middleware V)) (codecMarshal : V → Except GoError Bytes)
    (ctx : GoCtx) (req : PkgRequest) : PkgResponse × Option GoError :=
  let resp : PkgResponse := ⟨req.serviceMethod, req.seq, req.metadata, "", []⟩
  match parseServiceMethod req.serviceMethod with
  | none =>
    ({ resp with error := "rpc: service/method request ill-formed: " ++ req.serviceMethod },
      none)
  | some (serviceName, methodName) =>
    match services.lookup serviceName with
    | none => ({ resp with error := Errors.ErrServiceNotFound.errString }, none)
    | some svc =>
      match svc.lookup methodName with
      | none => ({ resp with error := Errors.ErrMethodNotFound.errString }, none)
      | some m =>
        match m.argDecode req.payload with
        | .error e => ({ resp with error := "unmarshal argument: " ++ e.errString }, none)
        | .ok argv =>
          match applyMiddlewares mws (fun c r => m.invoke c r) ctx argv with
          | .error e => ({ resp with error := e.errString }, none)
          | .ok reply =>
            match codecMarshal reply with
            | .error e => ({ resp with error := "marshal reply: " ++ e.errString }, none)
            | .ok pb => ({ resp with payload := pb }, none)

/-- The frame-handling closure `DefaultServer.Serve` hands to
`Transport.Listen`: decode the JSON envelope (a decode failure produces a
best-effort error response), enrich the context with the metadata (when
the map is non-nil) and the service-method under the well-known keys, run
`handleRequest`, and marshal the response. `encJson` is total: JSON
marshalling of the plain `Response` struct cannot fail, so the branch
returning its error is not reachable and is dropped here. -/
def serveFrame {V : Type}
    (services : List (String × List (String × MethodEntry V)))
    (mws : List (Middleware V)) (codecMarshal : V → Except GoError Bytes)
    (decJson : Bytes → Except GoError PkgRequest)
    (encJson : PkgResponse → Bytes)
    (ctx : GoCtx) (message : Bytes) : Except GoError Bytes :=
  match decJson message with
  | .error e => .ok (encJson ⟨"", 0, [], "unmarshal request: " ++ e.errString, []⟩)
  | .ok req =>
    let ctx1 := if req.metadata ≠ [] then ("metadata", CtxVal.meta req.metadata) :: ctx
      else ctx
    let ctx2 := ("service_method", CtxVal.str req.serviceMethod) :: ctx1
    match handleRequest services mws codecMarshal ctx2 req with
    | (resp, none) => .ok (encJson resp)
    | (resp, some e) => .ok (encJson ⟨req.serviceMethod, req.seq, [], e.errString, []⟩)

/-- C7: whenever the middleware chain around a registered method (and so
the method itself, or any middleware) returns a non-nil error on a routed,
decoded request, the frame handler returns response-envelope bytes whose
error field is that error's string representation and whose payload is
empty, paired with a nil transport-level error. -/
theorem handler_error_serialized :
    ∀ (V : Type) (services : List (String × List (String × MethodEntry V)))
      (mws : List (Middleware V)) (codecMarshal : V → Except GoError Bytes)
      (decJson : Bytes → Except GoError PkgRequest) (encJson : PkgResponse → Bytes)
      (ctx : GoCtx) (message : Bytes) (req : PkgRequest) (sn mn : String)
      (svc : List (String × MethodEntry V)) (m : MethodEntry V) (argv : V) (e : GoError),
      decJson message = .ok req →
      parseServiceMethod req.serviceMethod = some (sn, mn) →
      services.lookup sn = some svc →
      svc.lookup mn = some m →
      m.argDecode req.payload = .ok argv →
      applyMiddlewares mws (fun c r => m.invoke c r)
        (("service_method", CtxVal.str req.serviceMethod) ::
          (if req.metadata ≠ [] then ("metadata", CtxVal.meta req.metadata) :: ctx
            else ctx)) argv = .error e →
      handleRequest services mws codecMarshal
          (("service_method", CtxVal.str req.serviceMethod) ::
            (if req.metadata ≠ [] then ("metadata", CtxVal.meta req.metadata) :: ctx
              else ctx)) req
        = (⟨req.serviceMethod, req.seq, req.metadata, e.errString, []⟩, none) ∧
      serveFrame services mws codecMarshal decJson encJson ctx message
        = .ok (encJson ⟨req.serviceMethod, req.seq, req.metadata, e.errString, []⟩) := by
  intro V services mws codecMarshal decJson encJson ctx message req sn mn svc m argv e
  intro hdec hparse hsvc hmeth harg hchain
  have hhr : handleRequest services mws codecMarshal
      (("service_method", CtxVal.str req.serviceMethod) ::
        (if req.metadata ≠ [] then ("metadata", CtxVal.meta req.metadata) :: ctx
          else ctx)) req
      = (⟨req.serviceMethod, req.seq, req.metadata, e.errString, []⟩, none) := by
    unfold handleRequest
    rw [hparse]
    dsimp only
    rw [hsvc]
    dsimp only
    rw [hmeth]
    dsimp only
    rw [harg]
    dsimp only
    rw [hchain]
  refine ⟨hhr, ?_⟩
  unfold serveFrame
  rw [hdec]
  simp only [hhr]

/-- A concrete registered method for exercising the dispatch engine: the
argument decodes to 5 and the method fails with the error `bad input`. -/
def testMethodEntry : MethodEntry Nat :=
  ⟨fun _ => .ok 5, fun _ _ => .error (.thorErrN "unknown" "bad input")⟩

/-- Witness for the handler-error serialization at a concrete request
routed to `testMethodEntry` with no middleware. -/
theorem handler_error_serialized_witness :
    handleRequest [("S", [("M", testMethodEntry)])] ([] : List (Middleware Nat))
        (fun v => .ok [v]) [("service_method", CtxVal.str "S.M")] ⟨"S.M", 9, [], [1]⟩
      = (⟨"S.M", 9, [], "unknown: bad input", []⟩, none) ∧
    serveFrame [("S", [("M", testMethodEntry)])] ([] : List (Middleware Nat))
        (fun v => .ok [v]) (fun _ => .ok ⟨"S.M", 9, [], [1]⟩) (fun _ => []) [] []
      = .ok [] := by
  have h := handler_error_serialized Nat [("S", [("M", testMethodEntry)])] []
    (fun v => .ok [v]) (fun _ => .ok ⟨"S.M", 9, [], [1]⟩) (fun _ => [])
    [] [] ⟨"S.M", 9, [], [1]⟩ "S" "M" [("M", testMethodEntry)] testMethodEntry 5
    (.thorErrN "unknown" "bad input") rfl (by decide) rfl rfl rfl rfl
  simpa using h

/-!
## Client call multiplexor (`DefaultClient`, src/unnamed/part_001 and the
pkg draft in src/pkg/server.go)

The state transition of `Go` and `Close` on the client state: the mutex
serializes them, so they are modelled as atomic steps. A pending call
carries its error slot and the number of completion signals delivered to
its done channel (`call.done()` performs a non-blocking send). The
asynchronous send path does not touch the fields these claims concern and
is outside the step relation.
-/

/-- `thor.Call`, restricted to the fields the claims concern. -/
structure Call where
  serviceMethod : String
  seq : Nat
  err : Option GoError
  doneCount : Nat
deriving DecidableEq, Repr

/-- `DefaultClient`: closed flag, `uint64` sequence counter, pending-call
table, and whether the transport has been closed. -/
structure DefaultClient where
  closed : Bool
  seq : Nat
  pending : List (Nat × Call)
  transportClosed : Bool
deriving DecidableEq, Repr

/-- `NewClient`: open, counter 0, empty pending table. -/
def newClient : DefaultClient := ⟨false, 0, [], false⟩

/-- `DefaultClient.Go` (both drafts allocate identically): when closed,
return a pre-completed call carrying `ErrClientClosed` with one completion
signal delivered and the state unchanged; otherwise assign the current
counter as the seq, increment the counter (a `uint64`, hence modulo
`2 ^ 64`), and insert the new call into the pending table. -/
def clientGo (c : DefaultClient) (sm : String) : DefaultClient × Call :=
  if c.closed then
    (c, { serviceMethod := sm, seq := 0, err := some Errors.ErrClientClosed, doneCount := 1 })
  else
    let s := c.seq
    let call : Call := { serviceMethod := sm, seq := s, err := none, doneCount := 0 }
    ({ c with seq := (s + 1) % 2 ^ 64, pending := (s, call) :: c.pending }, call)

/-- `DefaultClient.Close` (root draft, part_001): on a closed client
return `ErrClientClosed`; otherwise mark closed, complete every pending
call with `ErrClientClosed` (error written, completion signalled), and
close the transport. -/
def clientClose (c : DefaultClient) : DefaultClient × Option GoError :=
  if c.closed then (c, some Errors.ErrClientClosed)
  else
    ({ closed := true, seq := c.seq,
       pending := c.pending.map (fun p =>
         (p.1, { p.2 with err := some Errors.ErrClientClosed, doneCount := p.2.doneCount + 1 })),
       transportClosed := true }, none)

/-- `DefaultClient.Close` (pkg draft): on a closed client return nil;
otherwise mark closed and close the transport — the pending table is not
touched. -/
def pkgClientClose (c : DefaultClient) : DefaultClient × Option GoError :=
  if c.closed then (c, none)
  else ({ c with closed := true, transportClosed := true }, none)

/-- The client after `n` successful `Go` invocations from `NewClient`. -/
def clientAfterGo : Nat → DefaultClient
  | 0 => newClient
  | n + 1 => (clientGo (clientAfterGo n) "m").1

/-- The seq assigned by the `n`-th `Go` invocation (0-indexed). -/
def nthGoSeq (n : Nat) : Nat := (clientGo (clientAfterGo n) "m").2.seq

theorem clientAfterGo_closed (n : Nat) : (clientAfterGo n).closed = false := by
  induction n with
  | zero => rfl
  | succ n ih =>
    unfold clientAfterGo clientGo
    rw [ih]
    simp

theorem clientAfterGo_seq (n : Nat) : (clientAfterGo n).seq = n % 2 ^ 64 := by
  induction n with
  | zero => rfl
  | succ n ih =>
    unfold clientAfterGo clientGo
    rw [clientAfterGo_closed n]
    simp only [Bool.false_eq_true, if_false, ih]
    omega

theorem nthGoSeq_eq (n : Nat) : nthGoSeq n = n % 2 ^ 64 := by
  unfold nthGoSeq clientGo
  rw [clientAfterGo_closed n]
  simp only [Bool.false_eq_true, if_false]
  exact clientAfterGo_seq n

/-- C4 counterexample: the `uint64` counter wraps, so the invocation with
index `2 ^ 64` is assigned seq 0 — the same value the very first
invocation was assigned — refuting strict growth and no-reuse over
unboundedly many invocations. -/
theorem seq_wraps_at_2_64 : nthGoSeq (2 ^ 64) = 0 ∧ nthGoSeq 0 = 0 := by
  constructor
  · rw [nthGoSeq_eq, Nat.mod_self]
  · rfl

/-- C4 (amended): among the first `2 ^ 64` `Go` invocations of a client
(the counter is a `uint64` and wraps after that), every invocation is
assigned a seq strictly greater than every earlier one — in particular no
seq is assigned twice in that range. -/
theorem seq_strictly_monotone :
    ∀ i j : Nat, i < j → j < 2 ^ 64 → nthGoSeq i < nthGoSeq j := by
  intro i j hij hj
  rw [nthGoSeq_eq, nthGoSeq_eq, Nat.mod_eq_of_lt (lt_trans hij hj),
    Nat.mod_eq_of_lt hj]
  exact hij

/-- Witness for seq monotonicity at the first two invocations. -/
theorem seq_strictly_monotone_witness :
    (0 : Nat) < 1 ∧ (1 : Nat) < 2 ^ 64 ∧ nthGoSeq 0 < nthGoSeq 1 :=
  ⟨by norm_num, by norm_num, seq_strictly_monotone 0 1 (by norm_num) (by norm_num)⟩

/-- C5 counterexample: in the pkg draft client, a second `Close` returns
nil — not `ClientClosed` — and the first `Close` leaves the pending call
uncompleted (error slot still empty, no completion signal). -/
theorem pkg_close_counterexample :
    (pkgClientClose (pkgClientClose ((clientGo newClient "m").1)).1).2 = none ∧
    ((pkgClientClose ((clientGo newClient "m").1)).1).pending
      = [(0, ⟨"m", 0, none, 0⟩)] := by decide

/-- C5 (amended): for the root client (part_001), `Close` on an open
client marks it closed, completes every pending call with `ClientClosed`
(error written and completion signalled exactly once more), closes the
transport and returns nil; afterwards `Go` returns a pre-completed call
carrying `ClientClosed` without touching the state, and a second `Close`
returns `ClientClosed` leaving the state unchanged. (In the pkg draft
client, `Close` does not complete pending calls and a second `Close`
returns nil.) -/
theorem client_close_spec :
    ∀ (c : DefaultClient) (sm : String), c.closed = false →
      (clientClose c).2 = none ∧
      ((clientClose c).1).closed = true ∧
      ((clientClose c).1).transportClosed = true ∧
      ((clientClose c).1).pending = c.pending.map (fun p =>
        (p.1, { p.2 with err := some Errors.ErrClientClosed, doneCount := p.2.doneCount + 1 })) ∧
      (clientGo (clientClose c).1 sm).2.err = some Errors.ErrClientClosed ∧
      (clientGo (clientClose c).1 sm).2.doneCount = 1 ∧
      (clientGo (clientClose c).1 sm).1 = (clientClose c).1 ∧
      (clientClose (clientClose c).1).2 = some Errors.ErrClientClosed ∧
      (clientClose (clientClose c).1).1 = (clientClose c).1 := by
  intro c sm hc
  simp [clientClose, clientGo, hc]

/-- Witness for the root-client close behaviour at a concrete client with
one pending call. -/
theorem client_close_spec_witness :
    (clientClose ⟨false, 5, [(3, ⟨"x", 3, none, 0⟩)], false⟩).2 = none ∧
    ((clientClose ⟨false, 5, [(3, ⟨"x", 3, none, 0⟩)], false⟩).1).pending
      = [(3, ⟨"x", 3, some Errors.ErrClientClosed, 1⟩)] ∧
    (clientClose (clientClose ⟨false, 5, [(3, ⟨"x", 3, none, 0⟩)], false⟩).1).2
      = some Errors.ErrClientClosed := by
  have h := client_close_spec ⟨false, 5, [(3, ⟨"x", 3, none, 0⟩)], false⟩ "m" rfl
  exact ⟨h.1, by rw [h.2.2.2.1]; decide, h.2.2.2.2.2.2.2.1⟩
